import Mathlib

/-!
Shallow embedding of pysc2/bin/compare_binaries.py.

The script launches one SC2 engine process per requested binary version,
drives all of them through the same replay in lockstep, diffs each peer's
observation against the reference instance (index 0), accumulates
divergence statistics, and tears the processes down in a finally block.

External collaborators (the engine processes, proto_diff, collections.Counter)
are modelled at their interfaces: observations are supplied by an environment,
the structural diff engine is an environment-supplied function returning the
list of divergent field paths, and Counter is an insertion-ordered association
list.
-/

namespace CompareBinaries

/-! ### Observation protos (the fields the script touches) -/

/-- One order queued on a raw unit (sc_pb); the script clears its
target_unit_tag field. -/
structure UnitOrder where
  target_unit_tag : Option Nat
  ability_id : Nat
deriving DecidableEq

/-- One raw unit in an observation; the script clears its tag field and the
target_unit_tag of each of its orders. -/
structure RawUnit where
  tag : Option Nat
  orders : List UnitOrder
  unit_type : Nat
deriving DecidableEq

/-- The unit_command submessage of a raw action. -/
structure UnitCommand where
  target_unit_tag : Option Nat
  ability_id : Nat
deriving DecidableEq

/-- The action_raw submessage of an action; unit_command is an optional
submessage (HasField in proto terms). -/
structure ActionRaw where
  unit_command : Option UnitCommand
deriving DecidableEq

/-- One action in a response observation; action_raw is an optional
submessage. -/
structure ObsAction where
  action_raw : Option ActionRaw
deriving DecidableEq

/-- The inner observation message: game_loop and the raw unit data. -/
structure InnerObservation where
  game_loop : Nat
  raw_data_units : List RawUnit
deriving DecidableEq

/-- An sc_pb.ResponseObservation as seen by the script: the inner observation,
the repeated actions field and the repeated player_result field (nonempty
player_result means the game reached a terminal result). -/
structure ResponseObservation where
  observation : InnerObservation
  actions : List ObsAction
  player_result : List Nat
deriving DecidableEq

/-- Clearing of one raw unit, as done by the two inner loops of
_clear_non_deterministic_fields (lines 48-51): clear unit.tag and each
order's target_unit_tag. -/
def clearUnit (u : RawUnit) : RawUnit :=
  { u with
    tag := none
    orders := u.orders.map (fun o => { o with target_unit_tag := none }) }

/-- Clearing of one action, as done by lines 53-56: only when action_raw is
present and its unit_command is present, clear the unit_command's
target_unit_tag. -/
def clearAction (a : ObsAction) : ObsAction :=
  match a.action_raw with
  | none => a
  | some ar =>
    match ar.unit_command with
    | none => a
    | some uc =>
      { a with action_raw := some { ar with unit_command := some { uc with target_unit_tag := none } } }

/-- Functional rendering of _clear_non_deterministic_fields (lines 47-56):
the observation with every unit's tag, every order's target_unit_tag and
every present unit_command's target_unit_tag cleared. -/
def clear_non_deterministic_fields (obs : ResponseObservation) : ResponseObservation :=
  { obs with
    observation :=
      { obs.observation with
        raw_data_units := obs.observation.raw_data_units.map clearUnit }
    actions := obs.actions.map clearAction }

/-! ### Diff paths and the Counter of anonymized paths -/

/-- One component of a proto_diff path: a named field or a sequence index.
anyIndex is the anonymous placeholder produced by index anonymization. -/
inductive PathComponent where
  | field (name : String)
  | index (i : Nat)
  | anyIndex
deriving DecidableEq

/-- A field path inside an observation proto, as produced by the structural
diff engine (spec section 6: sequence of field path components). -/
abbrev ProtoPath := List PathComponent

/-- Modelled from the spec: proto_diff's ProtoPath.with_anonymous_array_indices
(pysc2/lib/proto_diff.py is not under src/); per the spec's DivergencePath,
every sequence index in the path is replaced by an anonymous placeholder. -/
def with_anonymous_array_indices (p : ProtoPath) : ProtoPath :=
  p.map (fun c =>
    match c with
    | .index _ => .anyIndex
    | c => c)

/-- Modelled from the documented behavior of collections.Counter:
incrementing key k in an insertion-ordered association list; a new key is
appended at the end (first-encountered order). -/
def counterAdd (c : List (ProtoPath × Nat)) (k : ProtoPath) : List (ProtoPath × Nat) :=
  match c with
  | [] => [(k, 1)]
  | (k0, n0) :: rest =>
    if k0 = k then (k0, n0 + 1) :: rest else (k0, n0) :: counterAdd rest k

/-- Lookup of a key's count in the association-list Counter (0 if absent). -/
def counterGet (c : List (ProtoPath × Nat)) (k : ProtoPath) : Nat :=
  match c with
  | [] => 0
  | (k0, n0) :: rest => if k0 = k then n0 else counterGet rest k

/-- Stable insertion into a list sorted by count descending: the new entry
goes after every entry with a greater-or-equal count. -/
def insertByCountDesc (x : ProtoPath × Nat) : List (ProtoPath × Nat) → List (ProtoPath × Nat)
  | [] => [x]
  | y :: ys => if y.2 < x.2 then x :: y :: ys else y :: insertByCountDesc x ys

/-- Stable sort by count descending (insertion sort over the Counter's
insertion order): ties keep first-encountered order. -/
def sortByCountDesc (c : List (ProtoPath × Nat)) : List (ProtoPath × Nat) :=
  c.foldl (fun acc x => insertByCountDesc x acc) []

/-- Modelled from the documented behavior of collections.Counter.most_common(n):
the n entries with the largest counts, ordered by count descending, entries
with equal counts in first-encountered order. -/
def most_common (c : List (ProtoPath × Nat)) (n : Nat) : List (ProtoPath × Nat) :=
  (sortByCountDesc c).take n

/-! ### Environment and events -/

/-- Visible effects of main on its collaborators: one event per completed RPC
or process-management call, tagged with instance index (and tick where
relevant). -/
inductive Event where
  | launch (i : Nat)
  | replayInfo
  | startReplay (i : Nat)
  | step (t i : Nat)
  | observe (t i : Nat)
  | computeDiff (t i : Nat)
  | quit (i : Nat)
  | close (i : Nat)
deriving DecidableEq

/-- The environment main runs against: the argv vector handed to main by
app.run (argv gets the program name at position 0, cf. line 65 taking
argv listSliceFromOne), the flag values, and the behavior of the external
collaborators: whether each launch / quit / close call succeeds, the
observation each instance returns at each tick, the structural diff engine
(returning the all_diffs list of divergent paths, empty meaning no diff),
and the tick at whose boundary a KeyboardInterrupt arrives, if any. -/
structure Env where
  argv : List String
  diff : Bool
  count : Nat
  launchOk : Nat → Bool
  obsAt : Nat → Nat → ResponseObservation
  compute_diff : ResponseObservation → ResponseObservation → List ProtoPath
  interruptAt : Option Nat
  quitOk : Nat → Bool
  closeOk : Nat → Bool

/-- Launch loop of lines 93-97 over the given instance indices: each
successful start appends its event; a failed start raises, so later
instances are not launched (the partial event list and the failing index
are returned). -/
def launchAll (env : Env) : List Nat → List Event × Option Nat
  | [] => ([], none)
  | i :: rest =>
    if env.launchOk i then
      let r := launchAll env rest
      (Event.launch i :: r.1, r.2)
    else ([], some i)

/-- Teardown loop of lines 144-146 over the given instance indices: quit then
close each instance in order; a call that raises aborts the loop (a failed
quit skips that instance's close and every later instance; a failed close
skips every later instance). Returns the completed calls and whether the
whole loop finished without raising. -/
def teardownAll (env : Env) : List Nat → List Event × Bool
  | [] => ([], true)
  | i :: rest =>
    if env.quitOk i then
      if env.closeOk i then
        let r := teardownAll env rest
        (Event.quit i :: Event.close i :: r.1, r.2)
      else ([Event.quit i], false)
    else ([], false)

/-! ### The comparison loop (lines 111-140) -/

/-- The observation of instance i at tick t as used by the loop body: when
the diff flag is set the script destructively normalizes each observation
(line 122-123) before diffing, and the termination check at line 139 then
reads the mutated object. -/
def tickObs (env : Env) (t i : Nat) : ResponseObservation :=
  if env.diff then clear_non_deterministic_fields (env.obsAt t i) else env.obsAt t i

/-- The dict comprehension of lines 125-126: for each peer instance
1..n-1 in order, the diff of its observation against the reference
observation (index 0). -/
def tickDiffs (env : Env) (n t : Nat) : List (Nat × List ProtoPath) :=
  (List.range' 1 (n - 1)).map fun i =>
    (i, env.compute_diff (tickObs env t 0) (tickObs env t i))

/-- One step of the loop over diffs.items() (lines 130-137): a peer with an
empty diff is skipped; a peer with a nonempty diff gets its diff_counts slot
incremented once and every path of its diff, with array indices anonymized,
bumps the diff_paths Counter. -/
def recStep (acc : (Nat → Nat) × List (ProtoPath × Nat)) (d : Nat × List ProtoPath) :
    (Nat → Nat) × List (ProtoPath × Nat) :=
  if d.2.isEmpty then acc
  else
    (fun j => if j = d.1 then acc.1 j + 1 else acc.1 j,
     d.2.foldl (fun ps p => counterAdd ps (with_anonymous_array_indices p)) acc.2)

/-- The counter updates of lines 127-137: when at least one diff is nonempty
(the any() guard of line 127), the loop over diffs.items() updates the two
accumulators peer by peer. -/
def recordDiffs (counts : Nat → Nat) (paths : List (ProtoPath × Nat))
    (diffs : List (Nat × List ProtoPath)) : (Nat → Nat) × List (ProtoPath × Nat) :=
  if diffs.any (fun d => !d.2.isEmpty) then diffs.foldl recStep (counts, paths)
  else (counts, paths)

/-- Per-tick accumulator state of the loop: the diff_counts array of line 99
(as a function from instance index), the diff_paths Counter of line 100, and
the trace of collaborator calls made so far. -/
structure LoopState where
  diff_counts : Nat → Nat
  diff_paths : List (ProtoPath × Nat)
  trace : List Event

/-- The step events of one tick: every instance stepped, in instance order
(lines 112-114). -/
def stepEvents (t n : Nat) : List Event :=
  (List.range n).map (Event.step t)

/-- The observe events of one tick: every instance observed, in instance
order (lines 116-119). -/
def observeEvents (t n : Nat) : List Event :=
  (List.range n).map (Event.observe t)

/-- The compute_diff events of one tick: peers 1..n-1 diffed against the
reference, in instance order (lines 125-126). -/
def diffEvents (t n : Nat) : List Event :=
  (List.range' 1 (n - 1)).map (Event.computeDiff t)

/-- The diff block of lines 121-137 applied to the loop state: a no-op when
the diff flag is off, otherwise it records the diff events and feeds the
tick's diffs into the accumulators. -/
def diffBlock (env : Env) (n t : Nat) (s : LoopState) : LoopState :=
  if env.diff then
    let r := recordDiffs s.diff_counts s.diff_paths (tickDiffs env n t)
    { diff_counts := r.1, diff_paths := r.2, trace := s.trace ++ diffEvents t n }
  else s

/-- One full loop iteration at tick t minus control flow: step all, observe
all, then the diff block. -/
def tickBody (env : Env) (n t : Nat) (s : LoopState) : LoopState :=
  diffBlock env n t
    { s with trace := s.trace ++ stepEvents t n ++ observeEvents t n }

/-- Statistics-only view of one tick (trace dropped), used to state that an
interrupted run keeps exactly the statistics of the completed ticks. -/
def tickStats (env : Env) (n t : Nat)
    (cp : (Nat → Nat) × List (ProtoPath × Nat)) : (Nat → Nat) × List (ProtoPath × Nat) :=
  if env.diff then recordDiffs cp.1 cp.2 (tickDiffs env n t) else cp

/-- Reference-instance terminal check of line 139: whether obs[0] (after the
diff block possibly normalized it) carries a nonempty player_result. -/
def terminalAt (env : Env) (t : Nat) : Bool :=
  !(tickObs env t 0).player_result.isEmpty

/-- How the for loop of lines 111-140 ended: range exhausted (budget), break
on the reference's terminal result at tick t (line 140), or KeyboardInterrupt
at the boundary of tick t. Each constructor carries the tick at which the
loop stopped. -/
inductive LoopExit where
  | budget (t : Nat)
  | result (t : Nat)
  | interrupt (t : Nat)
deriving DecidableEq

/-- Number of fully executed ticks of a run that started at tick t0 and ended
as given: a result-break at t still executed tick t entirely; an interrupt at
t did not start tick t. -/
def LoopExit.ticksDone (e : LoopExit) (t0 : Nat) : Nat :=
  match e with
  | .budget t => t - t0
  | .result t => t + 1 - t0
  | .interrupt t => t - t0

/-- The for loop of lines 111-140: fuel is the remaining range of the
iteration counter (initially FLAGS.count), t the current tick. A pending
KeyboardInterrupt fires at the tick boundary; otherwise the tick body runs
and the reference's terminal result breaks the loop after the diff block. -/
def runLoop (env : Env) (n : Nat) : Nat → Nat → LoopState → LoopState × LoopExit
  | 0, t, s => (s, .budget t)
  | fuel + 1, t, s =>
    if env.interruptAt = some t then (s, .interrupt t)
    else
      let s2 := tickBody env n t s
      if terminalAt env t then (s2, .result t)
      else runLoop env n fuel (t + 1) s2

/-! ### main (lines 59-162) -/

/-- How the process exits: usage is the sys.exit of lines 62-63 (nonzero,
with a usage message); launchFailure i is an exception from the i-th
start call propagating with no enclosing try (lines 93-97); indexError is
the uncaught exception from subscripting the empty controllers list at line
104 when no binary was given; teardownFailure is an exception raised inside
the finally block (lines 144-146); ok is a normal return (exit code 0). -/
inductive ExitStatus where
  | usage
  | launchFailure (i : Nat)
  | indexError
  | teardownFailure
  | ok
deriving DecidableEq

/-- Observable result of one run of main: the call trace, the exit status,
how the loop ended (if it ran), the final accumulators, whether the diff
report of lines 148-157 was printed, and its two sections: the per-instance
(binary, count) lines of lines 150-151 in instance order, and the
most_common(100) path lines of lines 155-156. -/
structure MainResult where
  trace : List Event
  status : ExitStatus
  loopExit : Option LoopExit
  diff_counts : Nat → Nat
  diff_paths : List (ProtoPath × Nat)
  reportPrinted : Bool
  instanceReport : List (String × Nat)
  pathReport : List (ProtoPath × Nat)

/-- A MainResult for the exits taken before any statistics exist. -/
def earlyExit (trace : List Event) (status : ExitStatus) : MainResult :=
  { trace := trace, status := status, loopExit := none,
    diff_counts := fun _ => 0, diff_paths := [],
    reportPrinted := false, instanceReport := [], pathReport := [] }

/-- The main function of lines 59-162. The usage check of lines 61-63 fires
only on a completely empty argv; version_names is argv without its first
element (line 65). Launches happen outside the try block; the loop runs
inside try/except-KeyboardInterrupt/finally; teardown runs in the finally;
the reports print only when no exception is pending. -/
def main (env : Env) : MainResult :=
  if env.argv.isEmpty then earlyExit [] .usage
  else
    let version_names := env.argv.drop 1
    let n := version_names.length
    let launched := launchAll env (List.range n)
    match launched.2 with
    | some i => earlyExit launched.1 (.launchFailure i)
    | none =>
      if n = 0 then earlyExit launched.1 .indexError
      else
        let evs0 := launched.1 ++ [Event.replayInfo] ++ (List.range n).map Event.startReplay
        let s0 : LoopState :=
          { diff_counts := fun _ => 0, diff_paths := [], trace := evs0 }
        let r := runLoop env n env.count 0 s0
        let td := teardownAll env (List.range n)
        if td.2 then
          { trace := r.1.trace ++ td.1, status := .ok, loopExit := some r.2,
            diff_counts := r.1.diff_counts, diff_paths := r.1.diff_paths,
            reportPrinted := env.diff,
            instanceReport :=
              (List.range n).map fun i => (version_names.getD i "", r.1.diff_counts i),
            pathReport := most_common r.1.diff_paths 100 }
        else
          { trace := r.1.trace ++ td.1, status := .teardownFailure, loopExit := some r.2,
            diff_counts := r.1.diff_counts, diff_paths := r.1.diff_paths,
            reportPrinted := false, instanceReport := [], pathReport := [] }

/-! ### Derived notions and concrete runs used in the verification -/

/-- The events of one full tick, in the order the loop body issues them:
steps, then observes, then (with the diff flag) compute_diff calls. -/
def tickSegment (env : Env) (n u : Nat) : List Event :=
  stepEvents u n ++ observeEvents u n ++ (if env.diff then diffEvents u n else [])

/-- The tick a loop exit happened at. -/
def LoopExit.exitTick : LoopExit → Nat
  | .budget t => t
  | .result t => t
  | .interrupt t => t

/-- The MainResult of the ok branch of main (every launch succeeded, the loop
ran, every teardown call succeeded, the reports printed): used to characterize
main on failure-free environments. -/
def okResult (env : Env) (names : List String) : MainResult :=
  let n := names.length
  let s0 : LoopState :=
    { diff_counts := fun _ => 0, diff_paths := [],
      trace := ((List.range n).map Event.launch) ++ [Event.replayInfo]
        ++ (List.range n).map Event.startReplay }
  let r := runLoop env n env.count 0 s0
  { trace := r.1.trace ++ ((List.range n).map (fun i => [Event.quit i, Event.close i])).flatten,
    status := .ok, loopExit := some r.2,
    diff_counts := r.1.diff_counts, diff_paths := r.1.diff_paths,
    reportPrinted := env.diff,
    instanceReport := (List.range n).map fun i => (names.getD i "", r.1.diff_counts i),
    pathReport := most_common r.1.diff_paths 100 }

/-- A nonterminal observation with no units. -/
def obsPlain : ResponseObservation :=
  { observation := { game_loop := 0, raw_data_units := [] }, actions := [], player_result := [] }

/-- A nonterminal observation with one unit, distinguishable from obsPlain
even after normalization. -/
def obsUnit : ResponseObservation :=
  { observation := { game_loop := 0, raw_data_units := [{ tag := none, orders := [], unit_type := 7 }] },
    actions := [], player_result := [] }

/-- A terminal observation: nonempty player_result. -/
def obsDone : ResponseObservation :=
  { observation := { game_loop := 0, raw_data_units := [] }, actions := [], player_result := [1] }

/-- A concrete external diff engine: equal observations diff empty, unequal
ones diverge on two health fields at different sequence indices (so both
anonymize to the same path). -/
def diffTwoPaths (a b : ResponseObservation) : List ProtoPath :=
  if a = b then []
  else [[PathComponent.index 2, PathComponent.field "health"],
        [PathComponent.index 5, PathComponent.field "health"]]

/-- The anonymized form of the two divergent paths of diffTwoPaths. -/
def anonHealth : ProtoPath := [PathComponent.anyIndex, PathComponent.field "health"]

/-- An empty loop state. -/
def stateW0 : LoopState := { diff_counts := fun _ => 0, diff_paths := [], trace := [] }

/-- Run where the second of two launches fails. -/
def envC1 : Env :=
  { argv := ["compare_binaries.py", "v0", "v1"], diff := true, count := 3,
    launchOk := fun i => i == 0, obsAt := fun _ _ => obsPlain,
    compute_diff := diffTwoPaths, interruptAt := none,
    quitOk := fun _ => true, closeOk := fun _ => true }

/-- Run where quitting the first of two instances raises during teardown. -/
def envC2 : Env :=
  { argv := ["compare_binaries.py", "v0", "v1"], diff := false, count := 0,
    launchOk := fun _ => true, obsAt := fun _ _ => obsPlain,
    compute_diff := diffTwoPaths, interruptAt := none,
    quitOk := fun i => !(i == 0), closeOk := fun _ => true }

/-- Invocation with zero binary version identifiers: argv carries only the
program name (app.run always passes it, cf. line 65 dropping argv[0]). -/
def envC3 : Env :=
  { argv := ["compare_binaries.py"], diff := false, count := 3,
    launchOk := fun _ => true, obsAt := fun _ _ => obsPlain,
    compute_diff := diffTwoPaths, interruptAt := none,
    quitOk := fun _ => true, closeOk := fun _ => true }

/-- Run of budget 3 whose reference observation turns terminal at tick 1. -/
def envC4 : Env :=
  { argv := ["compare_binaries.py", "v0", "v1"], diff := true, count := 3,
    launchOk := fun _ => true,
    obsAt := fun t _ => if t = 1 then obsDone else obsPlain,
    compute_diff := diffTwoPaths, interruptAt := none,
    quitOk := fun _ => true, closeOk := fun _ => true }

/-- Three-instance run where peer 1 matches the reference and peer 2
diverges at every tick; one tick of budget. -/
def envDiverge : Env :=
  { argv := ["compare_binaries.py", "v0", "v1", "v2"], diff := true, count := 1,
    launchOk := fun _ => true,
    obsAt := fun _ i => if i = 2 then obsUnit else obsPlain,
    compute_diff := diffTwoPaths, interruptAt := none,
    quitOk := fun _ => true, closeOk := fun _ => true }

/-- Failure-free two-instance run of budget 5, interrupted at tick 2. -/
def envC8 : Env :=
  { argv := ["compare_binaries.py", "v0", "v1"], diff := true, count := 5,
    launchOk := fun _ => true, obsAt := fun _ _ => obsPlain,
    compute_diff := diffTwoPaths, interruptAt := some 2,
    quitOk := fun _ => true, closeOk := fun _ => true }

/-! ### Helper lemmas: the Counter and the recording fold -/

theorem counterGet_counterAdd (c : List (ProtoPath × Nat)) (k0 k : ProtoPath) :
    counterGet (counterAdd c k0) k = counterGet c k + if k0 = k then 1 else 0 := by
  induction c with
  | nil => simp [counterAdd, counterGet]
  | cons a rest ih =>
    obtain ⟨ak, am⟩ := a
    by_cases h1 : ak = k0
    · subst h1
      by_cases h2 : ak = k
      · subst h2; simp [counterAdd, counterGet]
      · simp [counterAdd, counterGet, h2]
    · by_cases h2 : ak = k
      · subst h2
        have hk : ¬ k0 = ak := fun h => h1 h.symm
        simp [counterAdd, counterGet, h1, hk]
      · simp [counterAdd, counterGet, h1, h2, ih]

theorem counterGet_foldAdd (l : List ProtoPath) (acc : List (ProtoPath × Nat)) (k : ProtoPath) :
    counterGet (l.foldl (fun ps q => counterAdd ps (with_anonymous_array_indices q)) acc) k
      = counterGet acc k + (l.map with_anonymous_array_indices).count k := by
  induction l generalizing acc with
  | nil => simp
  | cons q l ih =>
    simp only [List.foldl_cons, List.map_cons]
    rw [ih, counterGet_counterAdd, List.count_cons]
    by_cases h : with_anonymous_array_indices q = k
    · simp [h]
      omega
    · simp [h]

theorem recStep_empty (acc : (Nat → Nat) × List (ProtoPath × Nat))
    (d : Nat × List ProtoPath) (hd : d.2.isEmpty = true) : recStep acc d = acc := by
  simp [recStep, hd]

theorem recStep_nonempty (acc : (Nat → Nat) × List (ProtoPath × Nat))
    (d : Nat × List ProtoPath) (hd : d.2.isEmpty = false) :
    recStep acc d
      = (fun j => if j = d.1 then acc.1 j + 1 else acc.1 j,
         d.2.foldl (fun ps p => counterAdd ps (with_anonymous_array_indices p)) acc.2) := by
  simp [recStep, hd]

theorem foldl_recStep_counts (ds : List (Nat × List ProtoPath)) (c : Nat → Nat)
    (p : List (ProtoPath × Nat)) (i : Nat) :
    (ds.foldl recStep (c, p)).1 i
      = c i + ds.countP (fun d => d.1 == i && !d.2.isEmpty) := by
  induction ds generalizing c p with
  | nil => simp
  | cons d ds ih =>
    simp only [List.foldl_cons, List.countP_cons]
    by_cases hd : d.2.isEmpty
    · rw [recStep_empty _ _ hd, ih]
      simp [hd]
    · rw [Bool.not_eq_true] at hd
      rw [recStep_nonempty _ _ hd, ih]
      by_cases hi : d.1 = i
      · simp [hi, hd]; omega
      · have hni : ¬ i = d.1 := fun h => hi h.symm
        simp [hi, hni, hd]

theorem foldl_recStep_paths (ds : List (Nat × List ProtoPath)) (c : Nat → Nat)
    (p : List (ProtoPath × Nat)) (k : ProtoPath) :
    counterGet (ds.foldl recStep (c, p)).2 k
      = counterGet p k
        + (ds.map (fun d => (d.2.map with_anonymous_array_indices).count k)).sum := by
  induction ds generalizing c p with
  | nil => simp
  | cons d ds ih =>
    simp only [List.foldl_cons, List.map_cons, List.sum_cons]
    by_cases hd : d.2.isEmpty
    · have he : d.2 = [] := List.isEmpty_iff.mp hd
      rw [recStep_empty _ _ hd, ih, he]
      simp
    · rw [Bool.not_eq_true] at hd
      rw [recStep_nonempty _ _ hd, ih]
      simp only []
      rw [counterGet_foldAdd]
      omega

theorem recordDiffs_counts (c : Nat → Nat) (p : List (ProtoPath × Nat))
    (ds : List (Nat × List ProtoPath)) (i : Nat) :
    (recordDiffs c p ds).1 i = c i + ds.countP (fun d => d.1 == i && !d.2.isEmpty) := by
  unfold recordDiffs
  by_cases h : ds.any (fun d => !d.2.isEmpty)
  · simp [h, foldl_recStep_counts]
  · have h0 : ds.countP (fun d => d.1 == i && !d.2.isEmpty) = 0 := by
      rw [List.countP_eq_zero]
      intro d hd
      have : ¬ (!d.2.isEmpty) = true := by
        intro hne
        exact h (List.any_eq_true.mpr ⟨d, hd, hne⟩)
      simp at this
      simp [this]
    simp [h, h0]

theorem recordDiffs_paths (c : Nat → Nat) (p : List (ProtoPath × Nat))
    (ds : List (Nat × List ProtoPath)) (k : ProtoPath) :
    counterGet (recordDiffs c p ds).2 k
      = counterGet p k
        + (ds.map (fun d => (d.2.map with_anonymous_array_indices).count k)).sum := by
  unfold recordDiffs
  by_cases h : ds.any (fun d => !d.2.isEmpty)
  · simp [h, foldl_recStep_paths]
  · have h0 : (ds.map (fun d => (d.2.map with_anonymous_array_indices).count k)).sum = 0 := by
      apply List.sum_eq_zero
      intro x hx
      obtain ⟨d, hd, hdx⟩ := List.mem_map.mp hx
      have hni : ¬ (!d.2.isEmpty) = true := by
        intro hne
        exact h (List.any_eq_true.mpr ⟨d, hd, hne⟩)
      have he : d.2 = [] := by simpa using hni
      rw [← hdx, he]
      simp
    simp [h, h0]

/-! ### Helper lemmas: the normalizer -/

theorem clearUnit_clearUnit (u : RawUnit) : clearUnit (clearUnit u) = clearUnit u := by
  obtain ⟨tag, orders, ut⟩ := u
  simp only [clearUnit, List.map_map, RawUnit.mk.injEq]
  refine ⟨trivial, ?_, trivial⟩
  apply List.map_congr_left
  intro o _
  cases o
  rfl

theorem clearAction_clearAction (a : ObsAction) : clearAction (clearAction a) = clearAction a := by
  obtain ⟨ar⟩ := a
  cases ar with
  | none => rfl
  | some r =>
    obtain ⟨uc⟩ := r
    cases uc with
    | none => rfl
    | some u => rfl

/-! ### Helper lemmas: the lockstep loop -/

theorem tickBody_trace (env : Env) (n t : Nat) (s : LoopState) :
    (tickBody env n t s).trace = s.trace ++ tickSegment env n t := by
  unfold tickBody diffBlock tickSegment
  by_cases h : env.diff = true <;> simp [h, List.append_assoc]

theorem tickBody_stats (env : Env) (n t : Nat) (s : LoopState) :
    ((tickBody env n t s).diff_counts, (tickBody env n t s).diff_paths)
      = tickStats env n t (s.diff_counts, s.diff_paths) := by
  unfold tickBody diffBlock tickStats
  by_cases h : env.diff = true <;> simp [h]

theorem runLoop_exitTick_ge (env : Env) (n : Nat) :
    ∀ fuel t s, t ≤ ((runLoop env n fuel t s).2).exitTick := by
  intro fuel
  induction fuel with
  | zero => intro t s; simp [runLoop, LoopExit.exitTick]
  | succ fuel ih =>
    intro t s
    simp only [runLoop]
    by_cases hint : env.interruptAt = some t
    · simp [hint, LoopExit.exitTick]
    · simp only [if_neg hint]
      by_cases hterm : terminalAt env t = true
      · simp [hterm, LoopExit.exitTick]
      · simp only [hterm, Bool.false_eq_true, if_false]
        exact le_trans (Nat.le_succ t) (ih (t + 1) _)

theorem ticksDone_shift (e : LoopExit) (t : Nat) (h : t + 1 ≤ e.exitTick) :
    e.ticksDone t = e.ticksDone (t + 1) + 1 := by
  cases e <;> simp [LoopExit.ticksDone, LoopExit.exitTick] at * <;> omega

theorem runLoop_ticksDone_le (env : Env) (n : Nat) :
    ∀ fuel t s, ((runLoop env n fuel t s).2).ticksDone t ≤ fuel := by
  intro fuel
  induction fuel with
  | zero => intro t s; simp [runLoop, LoopExit.ticksDone]
  | succ fuel ih =>
    intro t s
    simp only [runLoop]
    by_cases hint : env.interruptAt = some t
    · simp [hint, LoopExit.ticksDone]
    · simp only [if_neg hint]
      by_cases hterm : terminalAt env t = true
      · simp [hterm, LoopExit.ticksDone]
      · simp only [hterm, Bool.false_eq_true, if_false]
        have hge := runLoop_exitTick_ge env n fuel (t + 1) (tickBody env n t s)
        rw [ticksDone_shift _ _ hge]
        exact Nat.succ_le_succ (ih (t + 1) _)

theorem runLoop_trace (env : Env) (n : Nat) :
    ∀ fuel t s, (runLoop env n fuel t s).1.trace
      = s.trace
        ++ ((List.range' t (((runLoop env n fuel t s).2).ticksDone t)).map
              (tickSegment env n)).flatten := by
  intro fuel
  induction fuel with
  | zero => intro t s; simp [runLoop, LoopExit.ticksDone]
  | succ fuel ih =>
    intro t s
    simp only [runLoop]
    by_cases hint : env.interruptAt = some t
    · simp [hint, LoopExit.ticksDone]
    · simp only [if_neg hint]
      by_cases hterm : terminalAt env t = true
      · simp only [hterm, if_pos]
        rw [tickBody_trace]
        have h1 : t + 1 - t = 1 := by omega
        simp [LoopExit.ticksDone, h1, List.range'_one]
      · simp only [hterm, Bool.false_eq_true, if_false]
        rw [ih (t + 1) (tickBody env n t s), tickBody_trace]
        have hge := runLoop_exitTick_ge env n fuel (t + 1) (tickBody env n t s)
        rw [ticksDone_shift _ _ hge, List.range'_succ]
        simp [List.append_assoc]

theorem runLoop_stats (env : Env) (n : Nat) :
    ∀ fuel t s,
      ((runLoop env n fuel t s).1.diff_counts, (runLoop env n fuel t s).1.diff_paths)
        = (List.range' t (((runLoop env n fuel t s).2).ticksDone t)).foldl
            (fun cp u => tickStats env n u cp) (s.diff_counts, s.diff_paths) := by
  intro fuel
  induction fuel with
  | zero => intro t s; simp [runLoop, LoopExit.ticksDone]
  | succ fuel ih =>
    intro t s
    simp only [runLoop]
    by_cases hint : env.interruptAt = some t
    · simp [hint, LoopExit.ticksDone]
    · simp only [if_neg hint]
      by_cases hterm : terminalAt env t = true
      · simp only [hterm, if_pos]
        have h1 : t + 1 - t = 1 := by omega
        simp only [LoopExit.ticksDone, h1, List.range'_one, List.foldl_cons, List.foldl_nil]
        exact tickBody_stats env n t s
      · simp only [hterm, Bool.false_eq_true, if_false]
        rw [ih (t + 1) (tickBody env n t s)]
        have hge := runLoop_exitTick_ge env n fuel (t + 1) (tickBody env n t s)
        rw [ticksDone_shift _ _ hge, List.range'_succ]
        simp only [List.foldl_cons]
        rw [tickBody_stats]

theorem runLoop_exit_budget (env : Env) (n : Nat) (hint : env.interruptAt = none) :
    ∀ fuel t s, (∀ u, t ≤ u → u < t + fuel → terminalAt env u = false) →
      (runLoop env n fuel t s).2 = .budget (t + fuel) := by
  intro fuel
  induction fuel with
  | zero => intro t s _; simp [runLoop]
  | succ fuel ih =>
    intro t s h
    simp only [runLoop]
    have hne : ¬ env.interruptAt = some t := by rw [hint]; simp
    rw [if_neg hne]
    have ht : terminalAt env t = false := h t (Nat.le_refl t) (by omega)
    simp only [ht, Bool.false_eq_true, if_false]
    have := ih (t + 1) (tickBody env n t s) (fun u hu1 hu2 => h u (by omega) (by omega))
    rw [this]
    congr 1
    omega

theorem runLoop_exit_result (env : Env) (n : Nat) (hint : env.interruptAt = none) :
    ∀ fuel t s t0, t ≤ t0 → t0 < t + fuel →
      (∀ u, t ≤ u → u < t0 → terminalAt env u = false) → terminalAt env t0 = true →
      ∃ s', runLoop env n fuel t s = (tickBody env n t0 s', .result t0) := by
  intro fuel
  induction fuel with
  | zero => intro t s t0 h1 h2 _ _; omega
  | succ fuel ih =>
    intro t s t0 h1 h2 h3 h4
    simp only [runLoop]
    have hne : ¬ env.interruptAt = some t := by rw [hint]; simp
    rw [if_neg hne]
    by_cases he : t = t0
    · subst he
      simp only [h4, if_pos]
      exact ⟨s, rfl⟩
    · have ht : terminalAt env t = false := h3 t (Nat.le_refl t) (by omega)
      simp only [ht, Bool.false_eq_true, if_false]
      exact ih (t + 1) (tickBody env n t s) t0 (by omega) (by omega)
        (fun u hu1 hu2 => h3 u (by omega) hu2) h4

theorem runLoop_exit_interrupt (env : Env) (n ti : Nat) (hintr : env.interruptAt = some ti) :
    ∀ fuel t s, t ≤ ti → ti < t + fuel →
      (∀ u, t ≤ u → u < ti → terminalAt env u = false) →
      (runLoop env n fuel t s).2 = .interrupt ti := by
  intro fuel
  induction fuel with
  | zero => intro t s h1 h2 _; omega
  | succ fuel ih =>
    intro t s h1 h2 h3
    simp only [runLoop]
    by_cases he : t = ti
    · subst he
      rw [if_pos hintr]
    · have hne : ¬ env.interruptAt = some t := by
        rw [hintr]
        simp
        omega
      rw [if_neg hne]
      have ht : terminalAt env t = false := h3 t (Nat.le_refl t) (by omega)
      simp only [ht, Bool.false_eq_true, if_false]
      exact ih (t + 1) (tickBody env n t s) (by omega) (by omega)
        (fun u hu1 hu2 => h3 u (by omega) hu2)

/-! ### Helper lemmas: launch and teardown -/

theorem launchAll_allOk (env : Env) :
    ∀ l, (∀ i ∈ l, env.launchOk i = true) → launchAll env l = (l.map Event.launch, none) := by
  intro l
  induction l with
  | nil => intro _; rfl
  | cons i rest ih =>
    intro h
    simp only [launchAll, h i (by simp), if_pos, ih (fun j hj => h j (by simp [hj])),
      List.map_cons]

theorem launchAll_fail (env : Env) :
    ∀ b a k, a ≤ k → k < a + b →
      (∀ j, a ≤ j → j < k → env.launchOk j = true) → env.launchOk k = false →
      launchAll env (List.range' a b) = ((List.range' a (k - a)).map Event.launch, some k) := by
  intro b
  induction b with
  | zero => intro a k h1 h2; omega
  | succ b ih =>
    intro a k h1 h2 h3 h4
    rw [List.range'_succ]
    by_cases he : a = k
    · subst he
      have h0 : a - a = 0 := by omega
      simp [launchAll, h4, h0]
    · have ha : env.launchOk a = true := h3 a (Nat.le_refl a) (by omega)
      simp only [launchAll, ha, if_pos]
      rw [ih (a + 1) k (by omega) (by omega) (fun j hj1 hj2 => h3 j (by omega) hj2) h4]
      have hk : k - a = (k - (a + 1)) + 1 := by omega
      rw [hk, List.range'_succ]
      simp

theorem teardownAll_allOk (env : Env) :
    ∀ l, (∀ i ∈ l, env.quitOk i = true ∧ env.closeOk i = true) →
      teardownAll env l = ((l.map (fun i => [Event.quit i, Event.close i])).flatten, true) := by
  intro l
  induction l with
  | nil => intro _; rfl
  | cons i rest ih =>
    intro h
    obtain ⟨hq, hc⟩ := h i (by simp)
    simp only [teardownAll, hq, hc, if_pos, ih (fun j hj => h j (by simp [hj])),
      List.map_cons, List.flatten_cons]
    rfl

theorem teardownAll_quitFail (env : Env) :
    ∀ b a k, a ≤ k → k < a + b →
      (∀ j, a ≤ j → j < k → env.quitOk j = true ∧ env.closeOk j = true) →
      env.quitOk k = false →
      teardownAll env (List.range' a b)
        = (((List.range' a (k - a)).map (fun i => [Event.quit i, Event.close i])).flatten,
           false) := by
  intro b
  induction b with
  | zero => intro a k h1 h2; omega
  | succ b ih =>
    intro a k h1 h2 h3 h4
    rw [List.range'_succ]
    by_cases he : a = k
    · subst he
      have h0 : a - a = 0 := by omega
      simp [teardownAll, h4, h0]
    · obtain ⟨hq, hc⟩ := h3 a (Nat.le_refl a) (by omega)
      simp only [teardownAll, hq, hc, if_pos]
      rw [ih (a + 1) k (by omega) (by omega) (fun j hj1 hj2 => h3 j (by omega) hj2) h4]
      have hk : k - a = (k - (a + 1)) + 1 := by omega
      rw [hk, List.range'_succ]
      simp

theorem teardownAll_closeFail (env : Env) :
    ∀ b a k, a ≤ k → k < a + b →
      (∀ j, a ≤ j → j < k → env.quitOk j = true ∧ env.closeOk j = true) →
      env.quitOk k = true → env.closeOk k = false →
      teardownAll env (List.range' a b)
        = (((List.range' a (k - a)).map (fun i => [Event.quit i, Event.close i])).flatten
             ++ [Event.quit k],
           false) := by
  intro b
  induction b with
  | zero => intro a k h1 h2; omega
  | succ b ih =>
    intro a k h1 h2 h3 h4 h5
    rw [List.range'_succ]
    by_cases he : a = k
    · subst he
      have h0 : a - a = 0 := by omega
      simp [teardownAll, h4, h5, h0]
    · obtain ⟨hq, hc⟩ := h3 a (Nat.le_refl a) (by omega)
      simp only [teardownAll, hq, hc, if_pos]
      rw [ih (a + 1) k (by omega) (by omega) (fun j hj1 hj2 => h3 j (by omega) hj2) h4 h5]
      have hk : k - a = (k - (a + 1)) + 1 := by omega
      rw [hk, List.range'_succ]
      simp

/-! ### Helper lemmas: main -/

theorem main_ok (env : Env) (prog : String) (names : List String)
    (hargv : env.argv = prog :: names) (hn : names ≠ [])
    (hlaunch : ∀ i, env.launchOk i = true)
    (hquit : ∀ i, env.quitOk i = true) (hclose : ∀ i, env.closeOk i = true) :
    main env = okResult env names := by
  have hla := launchAll_allOk env (List.range names.length) (fun i _ => hlaunch i)
  have hta := teardownAll_allOk env (List.range names.length)
    (fun i _ => ⟨hquit i, hclose i⟩)
  unfold main okResult
  rw [hargv]
  simp only [List.isEmpty_cons, Bool.false_eq_true, if_false, List.drop_succ_cons,
    List.drop_zero, hla, hta, if_true]
  rw [if_neg (by simpa using hn)]

theorem tickDiffs_key_ge_one (env : Env) (n t : Nat) :
    ∀ d ∈ tickDiffs env n t, 1 ≤ d.1 := by
  intro d hd
  unfold tickDiffs at hd
  obtain ⟨i, hi, rfl⟩ := List.mem_map.mp hd
  exact (List.mem_range'_1.mp hi).1

theorem tickStats_counts_zero (env : Env) (n t : Nat)
    (cp : (Nat → Nat) × List (ProtoPath × Nat)) (h : cp.1 0 = 0) :
    (tickStats env n t cp).1 0 = 0 := by
  unfold tickStats
  by_cases hd : env.diff = true
  · rw [if_pos hd, recordDiffs_counts, h]
    have h0 : (tickDiffs env n t).countP (fun d => d.1 == 0 && !d.2.isEmpty) = 0 := by
      rw [List.countP_eq_zero]
      intro d hdm
      have := tickDiffs_key_ge_one env n t d hdm
      have : (d.1 == 0) = false := by
        simp only [beq_eq_false_iff_ne, ne_eq]
        omega
      simp [this]
    rw [h0]
  · rw [if_neg hd]
    exact h

theorem foldl_tickStats_counts_zero (env : Env) (n : Nat) (l : List Nat) :
    ∀ cp, cp.1 0 = 0 →
      ((l.foldl (fun cp u => tickStats env n u cp) cp).1) 0 = 0 := by
  induction l with
  | nil => intro cp h; exact h
  | cons u l ih =>
    intro cp h
    simp only [List.foldl_cons]
    exact ih _ (tickStats_counts_zero env n u cp h)

theorem runLoop_counts_zero (env : Env) (n fuel t : Nat) (s : LoopState)
    (h : s.diff_counts 0 = 0) :
    (runLoop env n fuel t s).1.diff_counts 0 = 0 := by
  have hp := runLoop_stats env n fuel t s
  have h1 := congrArg Prod.fst hp
  simp only at h1
  rw [h1]
  exact foldl_tickStats_counts_zero env n _ _ h

/-! ### Helper lemmas: counting one key, sorting and stability -/

theorem countP_beq_key (l : List Nat) (i : Nat) (b : Nat → Bool) (hnd : l.Nodup) :
    l.countP (fun j => j == i && b j) = if i ∈ l ∧ b i = true then 1 else 0 := by
  induction l with
  | nil => simp
  | cons a l ih =>
    rw [List.nodup_cons] at hnd
    obtain ⟨hal, hl⟩ := hnd
    rw [List.countP_cons, ih hl]
    by_cases hai : a = i
    · subst hai
      have hni : ¬ (a ∈ l ∧ b a = true) := fun h => hal h.1
      rw [if_neg hni]
      by_cases hb : b a = true <;> simp [hb]
    · have : (a == i) = false := by simpa using hai
      simp only [this, Bool.false_and, Bool.false_eq_true, if_false, Nat.add_zero]
      by_cases hmem : i ∈ l ∧ b i = true
      · rw [if_pos hmem, if_pos ⟨List.mem_cons_of_mem a hmem.1, hmem.2⟩]
      · rw [if_neg hmem, if_neg]
        intro hc
        apply hmem
        refine ⟨?_, hc.2⟩
        rcases List.mem_cons.mp hc.1 with h | h
        · exact absurd h.symm hai
        · exact h

theorem mem_insertByCountDesc (x y : ProtoPath × Nat) (l : List (ProtoPath × Nat)) :
    y ∈ insertByCountDesc x l ↔ y = x ∨ y ∈ l := by
  induction l with
  | nil => simp [insertByCountDesc]
  | cons z zs ih =>
    unfold insertByCountDesc
    by_cases h : z.2 < x.2
    · simp [h]
    · simp only [h, if_false, List.mem_cons, ih]
      tauto

theorem sorted_insertByCountDesc (x : ProtoPath × Nat) (l : List (ProtoPath × Nat))
    (h : List.Sorted (fun a b : ProtoPath × Nat => b.2 ≤ a.2) l) :
    List.Sorted (fun a b : ProtoPath × Nat => b.2 ≤ a.2) (insertByCountDesc x l) := by
  induction l with
  | nil => simp [insertByCountDesc]
  | cons z zs ih =>
    rw [List.sorted_cons] at h
    obtain ⟨hz, hzs⟩ := h
    unfold insertByCountDesc
    by_cases hlt : z.2 < x.2
    · rw [if_pos hlt, List.sorted_cons]
      refine ⟨?_, List.sorted_cons.mpr ⟨hz, hzs⟩⟩
      intro b hb
      rcases List.mem_cons.mp hb with rfl | hb
      · omega
      · have := hz b hb
        omega
    · rw [if_neg hlt, List.sorted_cons]
      refine ⟨?_, ih hzs⟩
      intro b hb
      rcases (mem_insertByCountDesc x b zs).mp hb with rfl | hb
      · omega
      · exact hz b hb

theorem sorted_sortByCountDesc (c : List (ProtoPath × Nat)) :
    List.Sorted (fun a b : ProtoPath × Nat => b.2 ≤ a.2) (sortByCountDesc c) := by
  unfold sortByCountDesc
  suffices h : ∀ (l acc : List (ProtoPath × Nat)),
      List.Sorted (fun a b : ProtoPath × Nat => b.2 ≤ a.2) acc →
      List.Sorted (fun a b : ProtoPath × Nat => b.2 ≤ a.2)
        (l.foldl (fun acc x => insertByCountDesc x acc) acc) by
    exact h c [] (by simp)
  intro l
  induction l with
  | nil => intro acc h; exact h
  | cons x l ih =>
    intro acc h
    exact ih _ (sorted_insertByCountDesc x acc h)

theorem filter_insertByCountDesc (x : ProtoPath × Nat) (l : List (ProtoPath × Nat)) (v : Nat)
    (h : List.Sorted (fun a b : ProtoPath × Nat => b.2 ≤ a.2) l) :
    (insertByCountDesc x l).filter (fun y => y.2 == v)
      = if x.2 == v then l.filter (fun y => y.2 == v) ++ [x]
        else l.filter (fun y => y.2 == v) := by
  induction l with
  | nil =>
    by_cases hxv : (x.2 == v) = true <;> simp [insertByCountDesc, List.filter_cons, hxv]
  | cons z zs ih =>
    rw [List.sorted_cons] at h
    obtain ⟨hz, hzs⟩ := h
    unfold insertByCountDesc
    by_cases hlt : z.2 < x.2
    · rw [if_pos hlt]
      by_cases hxv : (x.2 == v) = true
      · have hxeq : x.2 = v := by simpa using hxv
        have hnil : (z :: zs).filter (fun y => y.2 == v) = [] := by
          rw [List.filter_eq_nil_iff]
          intro a ha
          rcases List.mem_cons.mp ha with rfl | ha'
          · simp
            omega
          · have := hz a ha'
            simp
            omega
        rw [hnil]
        simp only [List.filter_cons, hxv, if_pos, hxv, hnil]
        simp
      · simp only [List.filter_cons, hxv, Bool.false_eq_true, if_false]
    · rw [if_neg hlt]
      simp only [List.filter_cons, ih hzs]
      by_cases hzv : (z.2 == v) = true <;> by_cases hxv : (x.2 == v) = true <;>
        simp [hzv, hxv]

theorem filter_sortByCountDesc (c : List (ProtoPath × Nat)) (v : Nat) :
    (sortByCountDesc c).filter (fun y => y.2 == v) = c.filter (fun y => y.2 == v) := by
  unfold sortByCountDesc
  suffices h : ∀ (l acc : List (ProtoPath × Nat)),
      List.Sorted (fun a b : ProtoPath × Nat => b.2 ≤ a.2) acc →
      (l.foldl (fun acc x => insertByCountDesc x acc) acc).filter (fun y => y.2 == v)
        = acc.filter (fun y => y.2 == v) ++ l.filter (fun y => y.2 == v) by
    have h0 := h c [] (by simp)
    simp only [List.filter_nil, List.nil_append] at h0
    exact h0
  intro l
  induction l with
  | nil =>
    intro acc _
    simp only [List.foldl_nil, List.filter_nil, List.append_nil]
  | cons x l ih =>
    intro acc h
    simp only [List.foldl_cons]
    rw [ih _ (sorted_insertByCountDesc x acc h), filter_insertByCountDesc x acc v h]
    by_cases hxv : (x.2 == v) = true <;> simp [hxv, List.filter_cons]

/-! ### Claim theorems -/

/-- C7: the observation normalizer is idempotent: applying
_clear_non_deterministic_fields twice yields the same observation as
applying it once. -/
theorem normalizer_idempotent (o : ResponseObservation) :
    clear_non_deterministic_fields (clear_non_deterministic_fields o)
      = clear_non_deterministic_fields o := by
  have hu : ∀ l : List RawUnit, (l.map clearUnit).map clearUnit = l.map clearUnit := by
    intro l
    rw [List.map_map]
    apply List.map_congr_left
    intro u _
    exact clearUnit_clearUnit u
  have ha : ∀ l : List ObsAction, (l.map clearAction).map clearAction = l.map clearAction := by
    intro l
    rw [List.map_map]
    apply List.map_congr_left
    intro a _
    exact clearAction_clearAction a
  obtain ⟨⟨gl, units⟩, acts, pr⟩ := o
  simp only [clear_non_deterministic_fields]
  rw [hu, ha]

/-- C6: within every executed tick of the lockstep loop, all instances are
stepped in instance order, then all are observed in instance order, then
(with the diff flag on) peers 1..n-1 are diffed against the reference in
instance order: the loop trace is exactly the concatenation of these
per-tick segments. -/
theorem lockstep_phase_order (env : Env) (n fuel t0 : Nat) (s : LoopState) :
    (runLoop env n fuel t0 s).1.trace
      = s.trace
        ++ ((List.range' t0 (((runLoop env n fuel t0 s).2).ticksDone t0)).map
              (fun u =>
                (List.range n).map (Event.step u)
                ++ (List.range n).map (Event.observe u)
                ++ (if env.diff then (List.range' 1 (n - 1)).map (Event.computeDiff u)
                    else []))).flatten := by
  have h := runLoop_trace env n fuel t0 s
  simpa only [tickSegment, stepEvents, observeEvents, diffEvents] using h

/-- C4: the comparison loop runs at most the configured observation budget of
ticks; with no interrupt pending, it runs the full budget when no terminal
result ever appears, and it stops with a result exit right after the first
tick whose reference observation carries a terminal result — and since the
terminal check follows the diff block, that final tick's compute_diff calls
are still in the trace. -/
theorem loop_termination (env : Env) (n : Nat) (s : LoopState)
    (hint : env.interruptAt = none) :
    (((runLoop env n env.count 0 s).2).ticksDone 0 ≤ env.count)
    ∧ ((∀ u, u < env.count → terminalAt env u = false) →
        (runLoop env n env.count 0 s).2 = .budget env.count)
    ∧ (∀ t0, t0 < env.count → (∀ u, u < t0 → terminalAt env u = false) →
        terminalAt env t0 = true →
        (runLoop env n env.count 0 s).2 = .result t0
        ∧ (env.diff = true →
            diffEvents t0 n <:+ (runLoop env n env.count 0 s).1.trace)) := by
  refine ⟨runLoop_ticksDone_le env n env.count 0 s, ?_, ?_⟩
  · intro h
    have := runLoop_exit_budget env n hint env.count 0 s
      (fun u _ hu2 => h u (by omega))
    simpa using this
  · intro t0 h1 h2 h3
    obtain ⟨s', hs⟩ := runLoop_exit_result env n hint env.count 0 s t0 (by omega) (by omega)
      (fun u _ hu2 => h2 u hu2) h3
    constructor
    · rw [hs]
    · intro hd
      rw [hs]
      show diffEvents t0 n <:+ (tickBody env n t0 s').trace
      rw [tickBody_trace]
      unfold tickSegment
      rw [hd]
      simp only [if_true]
      refine ⟨s'.trace ++ (stepEvents t0 n ++ observeEvents t0 n), ?_⟩
      simp [List.append_assoc]

/-- Witness for loop_termination: on a concrete two-instance run of budget 3
whose reference observation turns terminal at tick 1, the loop exits with a
result exit at tick 1 and the trace still ends with that tick's diff calls. -/
theorem loop_termination_witness :
    (runLoop envC4 2 3 0 stateW0).2 = LoopExit.result 1
    ∧ diffEvents 1 2 <:+ (runLoop envC4 2 3 0 stateW0).1.trace := by
  have h := (loop_termination envC4 2 stateW0 rfl).2.2 1 (by decide) (by decide) (by decide)
  exact ⟨h.1, h.2 rfl⟩

/-- C5: with the diff flag on, one pass of the diff block increments the
divergence-tick counter of exactly the peers whose diff against the
reference is nonempty, by exactly one each; it leaves the reference's and
out-of-range slots untouched; and it adds to each anonymized path's global
counter exactly the number of discrepancies of that tick anonymizing to it. -/
theorem divergence_recording (env : Env) (n t : Nat) (s : LoopState)
    (hdiff : env.diff = true) :
    (∀ i, 1 ≤ i → i < n →
      (diffBlock env n t s).diff_counts i
        = s.diff_counts i
          + (if (env.compute_diff (tickObs env t 0) (tickObs env t i)).isEmpty then 0 else 1))
    ∧ (∀ i, i = 0 ∨ n ≤ i →
        (diffBlock env n t s).diff_counts i = s.diff_counts i)
    ∧ (∀ k, counterGet (diffBlock env n t s).diff_paths k
        = counterGet s.diff_paths k
          + ((List.range' 1 (n - 1)).map (fun i =>
              ((env.compute_diff (tickObs env t 0) (tickObs env t i)).map
                with_anonymous_array_indices).count k)).sum) := by
  unfold diffBlock
  rw [if_pos hdiff]
  refine ⟨?_, ?_, ?_⟩
  · intro i h1 h2
    simp only [recordDiffs_counts]
    unfold tickDiffs
    rw [List.countP_map]
    have hconv : ((fun d : Nat × List ProtoPath => d.1 == i && !d.2.isEmpty)
          ∘ (fun j => (j, env.compute_diff (tickObs env t 0) (tickObs env t j))))
        = fun j => j == i && !(env.compute_diff (tickObs env t 0) (tickObs env t j)).isEmpty :=
      rfl
    rw [hconv, countP_beq_key _ _ _ (List.nodup_range' 1 (n - 1))]
    have hmem : i ∈ List.range' 1 (n - 1) := List.mem_range'_1.mpr ⟨h1, by omega⟩
    by_cases he : (env.compute_diff (tickObs env t 0) (tickObs env t i)).isEmpty = true
    · have hno : ¬ (i ∈ List.range' 1 (n - 1)
          ∧ (!(env.compute_diff (tickObs env t 0) (tickObs env t i)).isEmpty) = true) := by
        intro hc
        simpa [he] using hc.2
      rw [if_neg hno, if_pos he]
    · rw [Bool.not_eq_true] at he
      rw [if_pos ⟨hmem, by simp [he]⟩, if_neg (by simp [he])]
  · intro i hi
    simp only [recordDiffs_counts]
    unfold tickDiffs
    rw [List.countP_map]
    have hconv : ((fun d : Nat × List ProtoPath => d.1 == i && !d.2.isEmpty)
          ∘ (fun j => (j, env.compute_diff (tickObs env t 0) (tickObs env t j))))
        = fun j => j == i && !(env.compute_diff (tickObs env t 0) (tickObs env t j)).isEmpty :=
      rfl
    rw [hconv, countP_beq_key _ _ _ (List.nodup_range' 1 (n - 1))]
    rw [if_neg]
    · simp
    · intro hc
      have := List.mem_range'_1.mp hc.1
      omega
  · intro k
    simp only [recordDiffs_paths]
    unfold tickDiffs
    rw [List.map_map]
    rfl

/-- Witness for divergence_recording: on a concrete three-instance tick where
peer 1 matches the reference and peer 2 diverges with two discrepancies that
anonymize to the same path, peer 2's counter rises by one, peer 1's stays
zero, and the anonymized path's global counter rises by two. -/
theorem divergence_recording_witness :
    (diffBlock envDiverge 3 0 stateW0).diff_counts 2 = 1
    ∧ (diffBlock envDiverge 3 0 stateW0).diff_counts 1 = 0
    ∧ counterGet (diffBlock envDiverge 3 0 stateW0).diff_paths anonHealth = 2 := by
  have h := divergence_recording envDiverge 3 0 stateW0 rfl
  refine ⟨?_, ?_, ?_⟩
  · have h2 := h.1 2 (by decide) (by decide)
    rw [h2]
    decide
  · have h1 := h.1 1 (by decide) (by decide)
    rw [h1]
    decide
  · have hk := h.2.2 anonHealth
    rw [hk]
    decide

/-- C10: the reference instance never accumulates divergence: for every
environment, whatever the run does, diff_counts slot 0 is still zero at
report time, because diffs are recorded only for peers 1..n-1. -/
theorem reference_never_diverges (env : Env) : (main env).diff_counts 0 = 0 := by
  unfold main
  by_cases h0 : env.argv.isEmpty = true
  · rw [if_pos h0]
    rfl
  · rw [if_neg h0]
    simp only []
    cases hla : (launchAll env (List.range (env.argv.drop 1).length)).2 with
    | some i =>
      simp only [hla]
      rfl
    | none =>
      simp only [hla]
      by_cases hn : (env.argv.drop 1).length = 0
      · rw [if_pos hn]
        rfl
      · rw [if_neg hn]
        by_cases htd : (teardownAll env (List.range (env.argv.drop 1).length)).2 = true
        · simp only [htd, if_true]
          exact runLoop_counts_zero env _ _ _ _ rfl
        · simp only [htd, Bool.false_eq_true, if_false]
          exact runLoop_counts_zero env _ _ _ _ rfl

/-- C1 counterexample: in a two-binary run whose second launch fails, the
first instance was launched but the program exits without sending it a quit
or releasing its process: the launch loop (lines 93-97) sits outside the
try/finally, so no teardown runs. -/
theorem launch_failure_not_torn_down :
    (main envC1).status = ExitStatus.launchFailure 1
    ∧ (main envC1).trace = [Event.launch 0]
    ∧ Event.quit 0 ∉ (main envC1).trace
    ∧ Event.close 0 ∉ (main envC1).trace := by
  decide

/-- C1 (amended): if launch k fails after launches 0..k-1 succeeded, the
error propagates and the program exits non-zero having launched exactly
instances 0..k-1, and no instance receives a quit or close call: teardown is
guaranteed only for failures raised after all launches succeed. -/
theorem launch_failure_behavior (env : Env) (prog : String) (names : List String) (k : Nat)
    (hargv : env.argv = prog :: names) (hk : k < names.length)
    (hok : ∀ j, j < k → env.launchOk j = true) (hfail : env.launchOk k = false) :
    (main env).status = ExitStatus.launchFailure k
    ∧ (main env).trace = (List.range k).map Event.launch
    ∧ ∀ i, Event.quit i ∉ (main env).trace ∧ Event.close i ∉ (main env).trace := by
  have hla : launchAll env (List.range names.length)
      = ((List.range k).map Event.launch, some k) := by
    have h := launchAll_fail env names.length 0 k (by omega) (by omega)
      (fun j _ hj2 => hok j hj2) hfail
    rw [List.range_eq_range' names.length, List.range_eq_range' k]
    simpa using h
  unfold main
  rw [hargv]
  simp only [List.isEmpty_cons, Bool.false_eq_true, if_false, List.drop_succ_cons,
    List.drop_zero, hla]
  refine ⟨rfl, rfl, ?_⟩
  intro i
  constructor <;>
    · show _ ∉ (List.range k).map Event.launch
      simp

/-- Witness for launch_failure_behavior at the concrete envC1 run. -/
theorem launch_failure_behavior_witness :
    (main envC1).status = ExitStatus.launchFailure 1
    ∧ Event.quit 0 ∉ (main envC1).trace := by
  have h := launch_failure_behavior envC1 "compare_binaries.py" ["v0", "v1"] 1 rfl
    (by decide) (by decide) (by decide)
  exact ⟨h.1, (h.2.2 0).1⟩

/-- C2 counterexample: in a two-instance run where quitting instance 0 raises
during teardown, instance 0 is never closed and instance 1 receives neither
quit nor close: the teardown loop of lines 144-146 has no per-instance error
handling, so the first failure aborts it. -/
theorem teardown_not_continued :
    (main envC2).status = ExitStatus.teardownFailure
    ∧ Event.quit 1 ∉ (main envC2).trace
    ∧ Event.close 1 ∉ (main envC2).trace
    ∧ Event.close 0 ∉ (main envC2).trace := by
  decide

/-- C2 (amended): when no teardown call fails, every instance receives quit
then close in instance order; but a quit failure on instance k aborts the
loop with only instances 0..k-1 torn down (k's close skipped), and a close
failure on instance k aborts it right after k's quit. -/
theorem teardown_failure_behavior (env : Env) (n : Nat) :
    ((∀ j, j < n → env.quitOk j = true ∧ env.closeOk j = true) →
      teardownAll env (List.range n)
        = (((List.range n).map (fun i => [Event.quit i, Event.close i])).flatten, true))
    ∧ (∀ k, k < n → (∀ j, j < k → env.quitOk j = true ∧ env.closeOk j = true) →
        env.quitOk k = false →
        teardownAll env (List.range n)
          = (((List.range k).map (fun i => [Event.quit i, Event.close i])).flatten, false))
    ∧ (∀ k, k < n → (∀ j, j < k → env.quitOk j = true ∧ env.closeOk j = true) →
        env.quitOk k = true → env.closeOk k = false →
        teardownAll env (List.range n)
          = (((List.range k).map (fun i => [Event.quit i, Event.close i])).flatten
               ++ [Event.quit k], false)) := by
  refine ⟨?_, ?_, ?_⟩
  · intro h
    exact teardownAll_allOk env (List.range n) (fun i hi => h i (List.mem_range.mp hi))
  · intro k hk hok hfail
    have h := teardownAll_quitFail env n 0 k (by omega) (by omega)
      (fun j _ hj2 => hok j hj2) hfail
    rw [List.range_eq_range']
    rw [show List.range k = List.range' 0 k from List.range_eq_range' k]
    simpa using h
  · intro k hk hok hq hc
    have h := teardownAll_closeFail env n 0 k (by omega) (by omega)
      (fun j _ hj2 => hok j hj2) hq hc
    rw [List.range_eq_range']
    rw [show List.range k = List.range' 0 k from List.range_eq_range' k]
    simpa using h

/-- Witness for teardown_failure_behavior: at envC2 the quit of instance 0
fails, so the teardown loop over two instances completes no call at all. -/
theorem teardown_failure_behavior_witness :
    teardownAll envC2 (List.range 2) = ([], false) := by
  have h := (teardown_failure_behavior envC2 2).2.1 0 (by decide)
    (fun j hj => absurd hj (Nat.not_lt_zero j)) (by decide)
  simpa using h

/-- C3 (evidence of the code bug): with zero binary identifiers, argv still
holds the program name, so the usage check of lines 61-63 does not fire; no
engine process is launched, and the program instead dies subscripting the
empty controllers list at line 104 — a non-zero exit with no usage
message. -/
theorem missing_usage_check :
    (main envC3).status = ExitStatus.indexError
    ∧ (main envC3).status ≠ ExitStatus.usage
    ∧ (main envC3).trace = [] := by
  decide

/-- C8: a KeyboardInterrupt at a tick boundary of a failure-free diff-enabled
run ends the run normally: exit status ok, the loop exit recorded as an
interrupt at that tick, the diff report printed, every instance quit and
closed, and the accumulated statistics exactly those of the completed
ticks. -/
theorem interrupt_normal_exit (env : Env) (prog : String) (names : List String) (t : Nat)
    (hargv : env.argv = prog :: names) (hn : names ≠ [])
    (hdiff : env.diff = true)
    (hlaunch : ∀ i, env.launchOk i = true)
    (hquit : ∀ i, env.quitOk i = true) (hclose : ∀ i, env.closeOk i = true)
    (hintr : env.interruptAt = some t) (ht : t < env.count)
    (hterm : ∀ u, u < t → terminalAt env u = false) :
    (main env).status = ExitStatus.ok
    ∧ (main env).loopExit = some (LoopExit.interrupt t)
    ∧ (main env).reportPrinted = true
    ∧ (∀ i, i < names.length →
        Event.quit i ∈ (main env).trace ∧ Event.close i ∈ (main env).trace)
    ∧ ((main env).diff_counts, (main env).diff_paths)
        = (List.range t).foldl (fun cp u => tickStats env names.length u cp)
            (fun _ => 0, []) := by
  rw [main_ok env prog names hargv hn hlaunch hquit hclose]
  unfold okResult
  simp only []
  have hexit := runLoop_exit_interrupt env names.length t hintr env.count 0
    { diff_counts := fun _ => 0, diff_paths := [],
      trace := ((List.range names.length).map Event.launch) ++ [Event.replayInfo]
        ++ (List.range names.length).map Event.startReplay }
    (by omega) (by omega) (fun u _ hu2 => hterm u hu2)
  refine ⟨trivial, ?_, hdiff, ?_, ?_⟩
  · rw [hexit]
  · intro i hi
    constructor
    · apply List.mem_append_right
      rw [List.mem_flatten]
      refine ⟨[Event.quit i, Event.close i], ?_, by simp⟩
      exact List.mem_map.mpr ⟨i, List.mem_range.mpr hi, rfl⟩
    · apply List.mem_append_right
      rw [List.mem_flatten]
      refine ⟨[Event.quit i, Event.close i], ?_, by simp⟩
      exact List.mem_map.mpr ⟨i, List.mem_range.mpr hi, rfl⟩
  · have hst := runLoop_stats env names.length env.count 0
      { diff_counts := fun _ => 0, diff_paths := [],
        trace := ((List.range names.length).map Event.launch) ++ [Event.replayInfo]
          ++ (List.range names.length).map Event.startReplay }
    rw [hexit] at hst
    simp only [LoopExit.ticksDone, Nat.sub_zero] at hst
    rw [hst, List.range_eq_range']

/-- Witness for interrupt_normal_exit at the concrete interrupted run
envC8. -/
theorem interrupt_normal_exit_witness :
    (main envC8).status = ExitStatus.ok
    ∧ (main envC8).loopExit = some (LoopExit.interrupt 2)
    ∧ Event.quit 1 ∈ (main envC8).trace := by
  have h := interrupt_normal_exit envC8 "compare_binaries.py" ["v0", "v1"] 2 rfl
    (by decide) rfl (fun i => rfl) (fun i => rfl) (fun i => rfl) rfl (by decide) (by decide)
  exact ⟨h.1, h.2.1, (h.2.2.2.1 1 (by decide)).1⟩

/-- C9 counterexample: in a three-binary run where only the third binary
diverges, the per-instance section of the report is printed in instance
order with counts 0, 0, 1 — not ranked by divergence-tick count. -/
theorem instance_report_not_ranked :
    (main envDiverge).instanceReport = [("v0", 0), ("v1", 0), ("v2", 1)]
    ∧ ¬ List.Sorted (fun a b : String × Nat => b.2 ≤ a.2)
        (main envDiverge).instanceReport := by
  have h1 : (main envDiverge).instanceReport = [("v0", 0), ("v1", 0), ("v2", 1)] := by
    decide
  refine ⟨h1, ?_⟩
  rw [h1]
  intro hs
  rw [List.sorted_cons] at hs
  have := hs.1 ("v2", 1) (by simp)
  simp at this

/-- C9 (amended): the path section of the report is the path Counter stably
sorted by occurrence count descending (ties keep first-encountered order)
and truncated to the top 100 entries; the per-instance section lists the
(binary, divergence-tick count) pairs in instance order, with no ranking by
count. -/
theorem report_ranking (env : Env) (prog : String) (names : List String)
    (hargv : env.argv = prog :: names) (hn : names ≠ [])
    (hlaunch : ∀ i, env.launchOk i = true)
    (hquit : ∀ i, env.quitOk i = true) (hclose : ∀ i, env.closeOk i = true) :
    (main env).pathReport = (sortByCountDesc (main env).diff_paths).take 100
    ∧ List.Sorted (fun a b : ProtoPath × Nat => b.2 ≤ a.2) (main env).pathReport
    ∧ (∀ v, (sortByCountDesc (main env).diff_paths).filter (fun y => y.2 == v)
          = (main env).diff_paths.filter (fun y => y.2 == v))
    ∧ (main env).instanceReport
        = (List.range names.length).map
            (fun i => (names.getD i "", (main env).diff_counts i)) := by
  rw [main_ok env prog names hargv hn hlaunch hquit hclose]
  unfold okResult most_common
  simp only []
  refine ⟨trivial, ?_, ?_, trivial⟩
  · exact List.Pairwise.sublist (List.take_sublist _ _) (sorted_sortByCountDesc _)
  · intro v
    exact filter_sortByCountDesc _ v

/-- Witness for report_ranking at the concrete envDiverge run. -/
theorem report_ranking_witness :
    (main envDiverge).pathReport
      = (sortByCountDesc (main envDiverge).diff_paths).take 100
    ∧ (sortByCountDesc (main envDiverge).diff_paths).filter (fun y => y.2 == 2)
        = (main envDiverge).diff_paths.filter (fun y => y.2 == 2) := by
  have h := report_ranking envDiverge "compare_binaries.py" ["v0", "v1", "v2"] rfl
    (by decide) (fun i => rfl) (fun i => rfl) (fun i => rfl)
  exact ⟨h.1, h.2.2.1 2⟩

end CompareBinaries
